import Mathlib

/-!
Verification development for the CollegeScraped web-scraping aggregation
service (src/app.py).  The Python source is shallowly embedded: pure parsing
helpers become Lean functions over small structural models of the HTML
fragments they inspect (each model records exactly the attributes and child
nodes the source reads, with element text modelled as the already-stripped
text the source's get_text calls produce), the asynchronous fan-out becomes a
schedule-indexed deterministic model, and the shared TTL cache becomes an
explicit state threaded through the endpoint handlers.
-/

set_option autoImplicit false

namespace CollegeScraped

/-! ### Basic character-list string utilities

The Python source manipulates strings through `str.startswith`, `str.replace`,
`str.title` and `urllib.parse.urljoin`.  These are modelled on `List Char`
so that every definition reduces structurally (concrete instances evaluate
with `decide` / `rfl`). -/

/-- Bool-valued prefix test on character lists (models `str.startswith`). -/
def isPrefixList : List Char → List Char → Bool
  | [], _ => true
  | _ :: _, [] => false
  | p :: ps, c :: cs => p == c && isPrefixList ps cs

/-- Models Python `s.startswith(pre)`. -/
def strStartsWith (s pre : String) : Bool :=
  isPrefixList pre.data s.data

/-- Fuel-driven replace-all on character lists; with fuel `≥ length` it
replaces every (leftmost, non-overlapping) occurrence of `pat`, exactly like
Python `str.replace`.  Fuel keeps the recursion structural. -/
def replaceFuel (pat rep : List Char) : Nat → List Char → List Char
  | _, [] => []
  | 0, l => l
  | fuel + 1, c :: cs =>
    if isPrefixList pat (c :: cs) then
      rep ++ replaceFuel pat rep fuel (List.drop (pat.length - 1) cs)
    else
      c :: replaceFuel pat rep fuel cs

/-- Models Python `s.replace(pat, rep)` (all occurrences). -/
def pyReplace (s pat rep : String) : String :=
  ⟨replaceFuel pat.data rep.data s.data.length s.data⟩

/-- One step of Python `str.title`: an alphabetic character is uppercased
after a non-alphabetic one and lowercased otherwise. -/
def pyTitleAux : Bool → List Char → List Char
  | _, [] => []
  | prevAlpha, c :: cs =>
    (if c.isAlpha then (if prevAlpha then c.toLower else c.toUpper) else c)
      :: pyTitleAux c.isAlpha cs

/-- Models Python `s.title()` (ASCII fragment, which is all the source uses). -/
def pyTitle (s : String) : String :=
  ⟨pyTitleAux false s.data⟩

/-- Split a character list at every occurrence of `sep`
(models Python `s.split(sep)` for a single-character separator). -/
def splitCharAux : List Char → Char → List (List Char)
  | [], _ => [[]]
  | x :: xs, sep =>
    match splitCharAux xs sep with
    | [] => [[]]
    | h :: t => if x == sep then [] :: h :: t else (x :: h) :: t

/-- Break a character list at the first occurrence of `sep`: returns the part
before it and, when `sep` occurs, the part after it. -/
def breakAtChar : List Char → Char → List Char × Option (List Char)
  | [], _ => ([], none)
  | x :: xs, sep =>
    if x == sep then ([], some xs)
    else
      let r := breakAtChar xs sep
      (x :: r.1, r.2)

/-- Join segments with `/` separators (models `'/'.join(...)`). -/
def joinWithSlash : List (List Char) → List Char
  | [] => []
  | s :: rest =>
    match rest with
    | [] => s
    | _ :: _ => s ++ '/' :: joinWithSlash rest

/-! ### Model of `urllib.parse.urljoin`, specialised to the fixed base

`BASE_URL = "https://rguktong.ac.in/"` in src/app.py line 18.  The model
follows CPython's `urljoin`: a URL carrying a scheme other than the base's is
returned unchanged; a network-path (`//...`) reference keeps the base scheme;
otherwise the path is merged against the base path `/`, dot segments are
resolved, and query/fragment are carried over. -/

def BASE_URL : String := "https://rguktong.ac.in/"

/-- RFC-3986 scheme characters after the leading letter. -/
def isSchemeTailChar (c : Char) : Bool :=
  c.isAlpha || c.isDigit || c == '+' || c == '-' || c == '.'

/-- Scan scheme characters up to a `:`; `none` when no well-formed scheme
delimiter is found. -/
def schemeSplitAux : List Char → Option (List Char × List Char)
  | [] => none
  | c :: cs =>
    if c == ':' then some ([], cs)
    else if isSchemeTailChar c then
      (schemeSplitAux cs).map (fun p => (c :: p.1, p.2))
    else none

/-- Split off a URL scheme (first char alphabetic, then scheme chars, then
`:`), as CPython's `urlparse` recognises one. -/
def schemeChars : List Char → Option (List Char × List Char)
  | [] => none
  | c :: cs =>
    if c.isAlpha then (schemeSplitAux cs).map (fun p => (c :: p.1, p.2))
    else none

/-- Whether a raw string carries a URL scheme — the spec's notion of "looks
absolute".  (The source instead tests `startswith('http')`.) -/
def hasScheme (s : String) : Bool :=
  (schemeChars s.data).isSome

def lowerChars (l : List Char) : List Char :=
  l.map Char.toLower

/-- Drop empty segments everywhere except the final position (CPython's
`segments[1:-1] = filter(None, segments[1:-1])` on relative references). -/
def filterInitEmpties : List (List Char) → List (List Char)
  | [] => []
  | [s] => [s]
  | s :: rest =>
    if s = [] then filterInitEmpties rest else s :: filterInitEmpties rest

/-- Segment list for a reference path merged against the base path `/`. -/
def urlSegs (pq : List Char) : List (List Char) :=
  if isPrefixList ['/'] pq then splitCharAux pq '/'
  else [] :: filterInitEmpties (splitCharAux pq '/')

/-- One step of CPython's dot-segment resolution loop. -/
def stepSeg (acc : List (List Char)) (seg : List Char) : List (List Char) :=
  if seg = ['.', '.'] then acc.dropLast
  else if seg = ['.'] then acc
  else acc ++ [seg]

/-- CPython's dot-segment resolution, including the trailing `.` / `..` rule. -/
def resolveSegs (segs : List (List Char)) : List (List Char) :=
  let r := segs.foldl stepSeg []
  match segs.getLast? with
  | some s => if s = ['.'] ∨ s = ['.', '.'] then r ++ [[]] else r
  | none => r

/-- Joined resolved path, defaulting to `/` (CPython's `'/'.join(...) or '/'`). -/
def pathFromSegs (segs : List (List Char)) : List Char :=
  let j := joinWithSlash (resolveSegs segs)
  if j = [] then ['/'] else j

/-- `urlunparse` prepends a slash to a non-absolute path when a netloc is
present. -/
def ensureSlash (p : List Char) : List Char :=
  if isPrefixList ['/'] p then p else '/' :: p

/-- Resolved path component for a reference path `pq` against the base. -/
def resolvedPath (pq : List Char) : List Char :=
  ensureSlash (pathFromSegs (urlSegs pq))

/-- Reattach an optional query/fragment part, dropped when empty
(as `urlunsplit` does). -/
def optPart (c : Char) (o : Option (List Char)) : List Char :=
  match o with
  | none => []
  | some s => if s = [] then [] else c :: s

/-- Join a scheme-less (or base-scheme) reference against the base. -/
def joinHier (r : List Char) : List Char :=
  if isPrefixList ['/', '/'] r then "https:".data ++ r
  else
    let pf := (breakAtChar r '#').1
    let frag := (breakAtChar r '#').2
    let pq := (breakAtChar pf '?').1
    let query := (breakAtChar pf '?').2
    (if pq = [] then "https://rguktong.ac.in/".data
     else "https://rguktong.ac.in".data ++ resolvedPath pq)
      ++ optPart '?' query ++ optPart '#' frag

/-- Character-level model of `urljoin(BASE_URL, url)`. -/
def urljoinChars (l : List Char) : List Char :=
  match schemeChars l with
  | some p => if lowerChars p.1 = "https".data then joinHier p.2 else l
  | none => joinHier l

/-- Models `urllib.parse.urljoin(BASE_URL, url)` from src/app.py. -/
def urljoinBase (url : String) : String :=
  ⟨urljoinChars url.data⟩

/-! ### The URL normalizer (src/app.py lines 31–33)

```python
def get_abs_url(path):
    if not path or path == "#": return None
    return urljoin(BASE_URL, path) if not path.startswith('http') else path
```
`None` inputs are modelled by `Option`. -/

def get_abs_url (path : Option String) : Option String :=
  match path with
  | none => none
  | some p =>
    if p = "" ∨ p = "#" then none
    else if strStartsWith p "http" then some p
    else some (urljoinBase p)

/-! ### Generic table extractor (src/app.py lines 51–65)

```python
def parse_generic_table(html):
    soup = BeautifulSoup(html, 'lxml')
    results = []
    table = soup.find('table')
    if table:
        for row in table.find_all('tr')[1:]:
            cols = row.find_all('td')
            if len(cols) >= 2:
                results.append({
                    "title": cols[0].get_text(strip=True),
                    "date": cols[1].get_text(strip=True),
                    "links": [{"text": ..., "url": get_abs_url(a['href'])}
                              for a in row.find_all('a', href=True)]})
    return results
```
A document is modelled by the first `table` element (if any), a table by its
`tr` rows in document order, and a row by its `td` cell texts plus every
anchor anywhere in the row (the source's `row.find_all('a', href=True)`
searches the whole row, regardless of column). -/

/-- An `a` element: its stripped text and its `href` attribute if present. -/
structure AnchorEl where
  text : String
  href : Option String
  deriving DecidableEq

/-- A `tr` element: its `td` texts (stripped) and all contained anchors. -/
structure RowRec where
  cells : List String
  anchors : List AnchorEl
  deriving DecidableEq

/-- The first `table` element: its `tr` rows in document order. -/
structure TableRec where
  rows : List RowRec
  deriving DecidableEq

/-- An upstream notifications/tenders/careers page: `soup.find('table')`. -/
structure TableDoc where
  table : Option TableRec
  deriving DecidableEq

/-- A `{text, url}` link entry. -/
structure LinkEntry where
  text : String
  url : Option String
  deriving DecidableEq

/-- A TableRow record `{title, date, links}`. -/
structure TableRowRec where
  title : String
  date : String
  links : List LinkEntry
  deriving DecidableEq

/-- `row.find_all('a', href=True)` mapped through `get_abs_url`. -/
def rowLinks (r : RowRec) : List LinkEntry :=
  (r.anchors.filter (fun a => a.href.isSome)).map
    (fun a => { text := a.text, url := get_abs_url a.href })

/-- The record a single data row contributes when it has at least two cells. -/
def emitRow (r : RowRec) : Option TableRowRec :=
  match r.cells with
  | c0 :: c1 :: _ => some { title := c0, date := c1, links := rowLinks r }
  | _ => none

/-- `parse_generic_table` (src/app.py 51–65): skip the first row, then append
one record per row having at least two cell columns. -/
def parse_generic_table (doc : TableDoc) : List TableRowRec :=
  match doc.table with
  | none => []
  | some t =>
    (t.rows.drop 1).foldl
      (fun results row =>
        match row.cells with
        | c0 :: c1 :: _ =>
          results ++ [{ title := c0, date := c1, links := rowLinks row }]
        | _ => results)
      []

/-! ### Deep-Bio fetcher (src/app.py lines 37–49)

```python
async def parse_deep_faculty(client, email):
    try:
        resp = await client.post(PROFILE_API, data={"email": email}, timeout=10.0)
        if resp.status_code != 200: return {}
        ...
        for div in p_soup.find_all('div', id=lambda x: x and x.startswith('content-')):
            key = div.get('id').replace('content-', '').replace('_', ' ').title()
            items = [li.get_text(strip=True) for li in div.find_all('li')]
            details[key] = items if items else div.get_text(strip=True)
        return details
    except: return {"error": "Deep fetch failed"}
```
The outcome of the POST (and of parsing the response) is modelled by
`FetchOutcome`: a response with a status code and the `div` elements of the
parsed body, or `failure` for any transport/parse exception caught by the
bare `except`. -/

/-- A bio field value: a plain string or a list of list-item texts. -/
inductive BioVal where
  | str (s : String)
  | items (l : List String)
  deriving DecidableEq

/-- The `details` dict: insertion-ordered key/value pairs. -/
abbrev BioMap := List (String × BioVal)

/-- A `div` element of a profile page: `id` attribute, `li` texts, full text. -/
structure BioDiv where
  id : Option String
  liTexts : List String
  text : String
  deriving DecidableEq

/-- Outcome of the upstream POST for one email. -/
inductive FetchOutcome where
  | resp (status : Nat) (divs : List BioDiv)
  | failure
  deriving DecidableEq

/-- The filter `id=lambda x: x and x.startswith('content-')`. -/
def matchesContent (d : BioDiv) : Bool :=
  match d.id with
  | some i => strStartsWith i "content-"
  | none => false

/-- `div.get('id').replace('content-', '').replace('_', ' ').title()`. -/
def divKey (d : BioDiv) : String :=
  pyTitle (pyReplace (pyReplace (d.id.getD "") "content-" "") "_" " ")

/-- `items if items else div.get_text(strip=True)`. -/
def divVal (d : BioDiv) : BioVal :=
  if d.liTexts = [] then BioVal.str d.text else BioVal.items d.liTexts

/-- Python dict assignment `details[key] = v`: overwrite in place when the
key exists, else append. -/
def dictInsert (l : BioMap) (k : String) (v : BioVal) : BioMap :=
  if l.any (fun p => p.1 == k) then
    l.map (fun p => if p.1 == k then (k, v) else p)
  else l ++ [(k, v)]

/-- `parse_deep_faculty` (src/app.py 37–49). -/
def parse_deep_faculty (out : FetchOutcome) : BioMap :=
  match out with
  | FetchOutcome.failure => [("error", BioVal.str "Deep fetch failed")]
  | FetchOutcome.resp status divs =>
    if status = 200 then
      divs.foldl
        (fun details d =>
          if matchesContent d then dictInsert details (divKey d) (divVal d)
          else details)
        []
    else []

/-! ### Staff directory extraction (src/app.py lines 185–202)

```python
for form in soup.find_all('form', action=lambda x: x and 'profile_details.php' in x):
    email_input = form.find('input', {'name': 'email'})
    if not email_input: continue
    email = email_input.get('value')
    if email in seen: continue
    seen.add(email)
    card = form.find_parent('div', class_=['bg-white', 'rounded-lg'])
    if card:
        name_tag = card.find(['h5', 'h3'])
        staff.append({"name": ... if name_tag else "Unknown",
                      "email": email,
                      "photo": get_abs_url(card.find('img')['src']) if card.find('img') else None})
```
A profile-detail form is modelled by its email input (present or not; when
present, the input's `value` attribute may itself be absent, giving Python
`None`) and its ancestor card `div` matching either class (present or not).
A card is modelled by its first `h5`/`h3` heading text and its first `img`'s
`src` (the source subscripts `['src']`, assuming the attribute is present). -/

/-- The ancestor card container of a profile form. -/
structure CardRec where
  nameTag : Option String
  img : Option String
  deriving DecidableEq

/-- One profile-detail form in document order. -/
structure StaffForm where
  emailValue : Option (Option String)
  card : Option CardRec
  deriving DecidableEq

/-- A StaffRecord as emitted by `/api/departments`.  `bio` is the optional
deep-fetched field mapping (absent unless `deep=true`). -/
structure StaffRec where
  name : String
  email : Option String
  photo : Option String
  bio : Option BioMap
  deriving DecidableEq

/-- The record built for a form with email `e` inside card `c`. -/
def staffOfCard (e : Option String) (c : CardRec) : StaffRec :=
  { name := match c.nameTag with | some n => n | none => "Unknown"
    email := e
    photo := match c.img with | some s => get_abs_url (some s) | none => none
    bio := none }

/-- The staff-directory loop of src/app.py 188–202, with the `seen` set made
explicit. -/
def extractStaff : List StaffForm → List (Option String) → List StaffRec
  | [], _ => []
  | f :: rest, seen =>
    match f.emailValue with
    | none => extractStaff rest seen
    | some email =>
      if email ∈ seen then extractStaff rest seen
      else
        match f.card with
        | none => extractStaff rest (email :: seen)
        | some c => staffOfCard email c :: extractStaff rest (email :: seen)

/-- The forms that contribute a record (same recursion as `extractStaff`),
used to relate the output to the document order of the input forms. -/
def keptForms : List StaffForm → List (Option String) → List StaffForm
  | [], _ => []
  | f :: rest, seen =>
    match f.emailValue with
    | none => keptForms rest seen
    | some email =>
      if email ∈ seen then keptForms rest seen
      else
        match f.card with
        | none => keptForms rest (email :: seen)
        | some _ => f :: keptForms rest (email :: seen)

/-- The record contributed by a kept form. -/
def recOf (f : StaffForm) : StaffRec :=
  staffOfCard (f.emailValue.getD none) (f.card.getD { nameTag := none, img := none })

/-! ### Deep fan-out (src/app.py lines 204–208)

```python
if deep:
    tasks = [parse_deep_faculty(client, s['email']) for s in staff]
    bios = await asyncio.gather(*tasks)
    for i, bio in enumerate(bios): staff[i]['bio'] = bio
```
`asyncio.gather` runs the tasks concurrently and returns their results in
task order.  Concurrency is modelled by a completion schedule `sched`: the
`k`-th entry of `sched` is the index of the task that completes `k`-th, and
each completing task writes its result into its own slot.  `gather` always
joins all tasks, so a faithful schedule is a permutation of the task
indices; the fan-out theorem shows the outcome is the same for every such
schedule. -/

/-- Slot array after running the tasks in completion order `sched`. -/
def gatherSched (tasks : List BioMap) (sched : List Nat) : List (Option BioMap) :=
  sched.foldl (fun acc k => acc.set k tasks[k]?) (List.replicate tasks.length none)

/-- The `if deep:` block of `department_staff`: fan out one
`parse_deep_faculty` call per record and attach result `i` to record `i`. -/
def departmentAttach (staff : List StaffRec) (deep : Bool)
    (fetch : Option String → BioMap) (sched : List Nat) : List StaffRec :=
  if deep then
    let tasks := staff.map (fun s => fetch s.email)
    let bios := gatherSched tasks sched
    (staff.zip bios).map (fun p => { p.1 with bio := p.2 })
  else staff

/-! ### Home extractor (src/app.py lines 98–109)

```python
data = {
  "announcements": [{"text": ..., "link": get_abs_url(a['href'])}
                    for a in soup.find_all('marquee')[0].find_all('a')]
                   if soup.find('marquee') else [],
  "stats": [{"label": s.find_next('p').get_text(strip=True),
             "value": s['data-purecounter-end']}
            for s in soup.find_all('span', class_='purecounter')],
  "images": [get_abs_url(img['src']) for img in soup.find_all('img') if img.get('src')]}
```
Marquee anchors are modelled with their `href` (the source subscripts
`a['href']`, assuming it present); counter spans with the following `p` text
and their `data-purecounter-end` attribute (likewise assumed present);
images with an optional `src`, since the source guards on `img.get('src')`. -/

structure MarqueeAnchor where
  text : String
  href : String
  deriving DecidableEq

structure CounterSpan where
  label : String
  value : String
  deriving DecidableEq

structure ImgEl where
  src : Option String
  deriving DecidableEq

/-- The home page: the anchors of the first marquee (if any marquee exists),
the purecounter spans, and every `img` on the page. -/
structure HomeDoc where
  marquee : Option (List MarqueeAnchor)
  counters : List CounterSpan
  imgs : List ImgEl
  deriving DecidableEq

structure Announcement where
  text : String
  link : Option String
  deriving DecidableEq

structure StatPair where
  label : String
  value : String
  deriving DecidableEq

structure HomeRes where
  announcements : List Announcement
  stats : List StatPair
  images : List (Option String)
  deriving DecidableEq

/-- The pure extraction part of `home_api`. -/
def home_extract (d : HomeDoc) : HomeRes :=
  { announcements :=
      match d.marquee with
      | some anchors =>
        anchors.map (fun a => { text := a.text, link := get_abs_url (some a.href) })
      | none => []
    stats := d.counters.map (fun s => { label := s.label, value := s.value })
    images :=
      (d.imgs.filter (fun i => i.src.isSome)).map (fun i => get_abs_url i.src) }

/-! ### Informational-section extractor (src/app.py lines 118–140)

The primary content container (`div.rgukt-content` or `div.main-data`) is
modelled, when present, as the ordered sequence of its nodes: the source's
`find_all` over headings followed by `next_sibling` walks is modelled on one
flattened sibling sequence (text nodes have `name = none`).  Sections start
at `h1`/`h2`/`h3` nodes carrying one of the three heading classes and
accumulate `p`/`ul`/`li` texts until the next `h1`/`h2`/`h3` of any class.
Info cards (`div.info-card` / `div.info-card-1`) are scanned over the whole
document, independent of the container. -/

structure SNode where
  name : Option String
  classes : List String
  text : String
  deriving DecidableEq

def headingClasses : List String :=
  ["heading-primary", "heading-secondary", "heading-teriatiry"]

def isH123 (n : SNode) : Bool :=
  n.name == some "h1" || n.name == some "h2" || n.name == some "h3"

def isClassedHeading (n : SNode) : Bool :=
  isH123 n && n.classes.any (fun c => headingClasses.contains c)

/-- `while curr and curr.name not in ['h1','h2','h3']: collect p/ul/li text`. -/
def collectContent : List SNode → List String
  | [] => []
  | n :: rest =>
    if isH123 n then []
    else
      (if n.name == some "p" || n.name == some "ul" || n.name == some "li"
       then [n.text] else [])
        ++ collectContent rest

structure SectionRec where
  title : String
  content : List String
  deriving DecidableEq

/-- One Section per classed heading, in document order. -/
def sectionsOf : List SNode → List SectionRec
  | [] => []
  | n :: rest =>
    (if isClassedHeading n then
       [{ title := n.text, content := collectContent rest }]
     else [])
      ++ sectionsOf rest

/-- An info-card `div`: first `h3`/`h2` heading, first `img` src, `p` texts. -/
structure CardDiv where
  nameTag : Option String
  img : Option String
  paras : List String
  deriving DecidableEq

structure ProfileRec where
  name : String
  photo : Option String
  text : List String
  deriving DecidableEq

/-- The info-card loop of src/app.py 133–140 (cards without a heading are
skipped). -/
def cardsOf (cards : List CardDiv) : List ProfileRec :=
  cards.filterMap (fun cd =>
    cd.nameTag.map (fun n =>
      { name := n
        photo := match cd.img with | some s => get_abs_url (some s) | none => none
        text := cd.paras }))

/-- An institute-info page: the primary content container (when either class
matches) and all info-card divs. -/
structure InstDoc where
  contentArea : Option (List SNode)
  cards : List CardDiv
  deriving DecidableEq

def instSections (d : InstDoc) : List SectionRec :=
  match d.contentArea with
  | some ns => sectionsOf ns
  | none => []

structure InstRes where
  page : String
  sections : List SectionRec
  profiles : List ProfileRec
  deriving DecidableEq

/-! ### Academic-links extractor (src/app.py lines 153–165)

Within `div.rgukt-content` (only that class here): for each `h1`/`h3`
heading, accumulate sibling `a` elements until the next `h1`/`h3` (the source
subscripts `curr['href']`, assuming anchors carry an href). -/

structure ANode where
  name : Option String
  text : String
  href : String
  deriving DecidableEq

structure AcadLink where
  label : String
  url : Option String
  deriving DecidableEq

structure LinkGroupRec where
  header : String
  links : List AcadLink
  deriving DecidableEq

def isH13 (n : ANode) : Bool :=
  n.name == some "h1" || n.name == some "h3"

/-- `while curr and curr.name not in ['h1','h3']: collect anchors`. -/
def collectAnchors : List ANode → List AcadLink
  | [] => []
  | n :: rest =>
    if isH13 n then []
    else
      (if n.name == some "a"
       then [{ label := n.text, url := get_abs_url (some n.href) }]
       else [])
        ++ collectAnchors rest

/-- One LinkGroup per `h1`/`h3` heading, in document order. -/
def linkGroupsOf : List ANode → List LinkGroupRec
  | [] => []
  | n :: rest =>
    (if isH13 n then
       [{ header := n.text, links := collectAnchors rest }]
     else [])
      ++ linkGroupsOf rest

/-- An academics page: the `rgukt-content` container, when present. -/
structure AcadDoc where
  contentArea : Option (List ANode)
  deriving DecidableEq

def acadLinks (d : AcadDoc) : List LinkGroupRec :=
  match d.contentArea with
  | some ns => linkGroupsOf ns
  | none => []

/-! ### Response cache (src/app.py lines 22–23)

`cache = TTLCache(maxsize=200, ttl=3600)` — the `TTLCache` implementation
itself lives in the external `cachetools` library, not in this repository;
only its construction appears in src/app.py. -/

def CACHE_TTL : Nat := 3600
def CACHE_MAXSIZE : Nat := 200

/-- A cached value of one of the endpoint result shapes (the shared Python
dict stores heterogeneous JSON values). -/
inductive CacheVal where
  | homeVal (v : HomeRes)
  | instVal (v : InstRes)
  | acadVal (v : List LinkGroupRec)
  | deptVal (dept : String) (faculties : List StaffRec)
  | notifVal (v : List TableRowRec)
  deriving DecidableEq

/-- The bounded time-expiring map: entries in insertion order (oldest
first), each with its insertion time. -/
structure TTLCache (V : Type) where
  entries : List (String × V × Nat)
  deriving DecidableEq

/-- Modelled from the spec: `get(key)` of the Response Cache — the
`cachetools.TTLCache` code is external to this repository.  "An entry is
invisible to `get` once its insertion time plus a fixed time-to-live (one
hour) has elapsed, regardless of whether it was evicted physically." -/
def TTLCache.get {V : Type} (c : TTLCache V) (now : Nat) (k : String) : Option V :=
  match c.entries.find? (fun e => e.1 == k) with
  | some e => if now < e.2.2 + CACHE_TTL then some e.2.1 else none
  | none => none

/-- Modelled from the spec: `put(key, value)` of the Response Cache — the
`cachetools.TTLCache` code is external to this repository.  Expired entries
and any previous entry for the key are dropped, the new entry is appended,
and insertion beyond the 200-entry capacity evicts oldest-first. -/
def TTLCache.put {V : Type} (c : TTLCache V) (now : Nat) (k : String) (v : V) :
    TTLCache V :=
  let kept := c.entries.filter (fun e => !(e.1 == k) && decide (now < e.2.2 + CACHE_TTL))
  let l := kept ++ [(k, v, now)]
  ⟨if CACHE_MAXSIZE < l.length then l.drop (l.length - CACHE_MAXSIZE) else l⟩

/-- The empty cache at process start. -/
def emptyCache : TTLCache CacheVal := ⟨[]⟩

/-! ### Endpoint handlers (src/app.py lines 98–221)

Each handler is modelled as a function from the shared cache state, the
current time, the request parameters, and the upstream page (what the Fetch
Client would return) to a triple: whether an upstream fetch was issued, the
JSON value returned, and the new cache state.  A cache hit returns the
cached value without fetching, exactly as `if key in cache: return cache[key]`. -/

/-- Cache key of `/api/home`: the literal `"home"`. -/
def homeKey : String := "home"

/-- Cache key of `/api/institute/{page}`: the bare page string. -/
def instituteKey (page : String) : String := page

/-- Cache key of `/api/academics/{page}`: `f"acad_{page}"`. -/
def academicsKey (page : String) : String := "acad_" ++ page

/-- Cache key of `/api/departments/{dept_code}`: `f"dept_{dept_code}_{deep}"`
(Python formats the boolean as `True`/`False`). -/
def deptKey (dept_code : String) (deep : Bool) : String :=
  "dept_" ++ dept_code ++ "_" ++ (if deep then "True" else "False")

/-- Cache key of `/api/notifications`: the bare type string. -/
def notificationsKey (ty : String) : String := ty

/-- The enumerated notification types of src/app.py line 215.  They appear
in the handler signature as `Query("news_updates", enum=[...])`; FastAPI
treats the unrecognised `enum` keyword as OpenAPI schema metadata only, so
the set is documented but not enforced at runtime. -/
def notifTypes : List String := ["news_updates", "tenders", "careers"]

/-- `home_api` (src/app.py 98–109). -/
def home_api (c : TTLCache CacheVal) (now : Nat) (doc : HomeDoc) :
    Bool × CacheVal × TTLCache CacheVal :=
  match c.get now homeKey with
  | some v => (false, v, c)
  | none =>
    let res := CacheVal.homeVal (home_extract doc)
    (true, res, c.put now homeKey res)

/-- `institute_info` (src/app.py 111–144). -/
def institute_info (c : TTLCache CacheVal) (now : Nat) (page : String)
    (doc : InstDoc) : Bool × CacheVal × TTLCache CacheVal :=
  match c.get now (instituteKey page) with
  | some v => (false, v, c)
  | none =>
    let res := CacheVal.instVal
      { page := page, sections := instSections doc, profiles := cardsOf doc.cards }
    (true, res, c.put now (instituteKey page) res)

/-- `academic_records` (src/app.py 146–168). -/
def academic_records (c : TTLCache CacheVal) (now : Nat) (page : String)
    (doc : AcadDoc) : Bool × CacheVal × TTLCache CacheVal :=
  match c.get now (academicsKey page) with
  | some v => (false, v, c)
  | none =>
    let res := CacheVal.acadVal (acadLinks doc)
    (true, res, c.put now (academicsKey page) res)

/-- `department_staff` (src/app.py 170–212).  `world` maps an email to the
outcome of its deep-bio POST; `sched` is the completion schedule of the
gather (see `gatherSched`). -/
def department_staff (c : TTLCache CacheVal) (now : Nat) (dept_code : String)
    (deep : Bool) (forms : List StaffForm)
    (world : Option String → FetchOutcome) (sched : List Nat) :
    Bool × CacheVal × TTLCache CacheVal :=
  match c.get now (deptKey dept_code deep) with
  | some v => (false, v, c)
  | none =>
    let staff := extractStaff forms []
    let staff2 := departmentAttach staff deep (fun e => parse_deep_faculty (world e)) sched
    let res := CacheVal.deptVal dept_code staff2
    (true, res, c.put now (deptKey dept_code deep) res)

/-- `news_tenders_careers` (src/app.py 214–221).  The handler body performs
no membership test of `ty` against `notifTypes` (see `notifTypes`): any type
string that misses the cache is fetched upstream via
`instituteinfo.php?data={type}`. -/
def news_tenders_careers (c : TTLCache CacheVal) (now : Nat) (ty : String)
    (doc : TableDoc) : Bool × CacheVal × TTLCache CacheVal :=
  match c.get now (notificationsKey ty) with
  | some v => (false, v, c)
  | none =>
    let res := CacheVal.notifVal (parse_generic_table doc)
    (true, res, c.put now (notificationsKey ty) res)

/-! ### Spec-side definitions used to state the claims -/

/-- The URL normalizer exactly as the spec words it: `None` for empty /
`None` / placeholder input, the input unchanged when it "already has a
scheme (looks absolute)", otherwise joined against the fixed base.  This is
the spec's refinement counterpart of `get_abs_url`, which instead tests
`startswith('http')`. -/
def resolveSpec (path : Option String) : Option String :=
  match path with
  | none => none
  | some p =>
    if p = "" ∨ p = "#" then none
    else if hasScheme p then some p
    else some (urljoinBase p)

/-- The emitted-URL invariant actually maintained by the code: an emitted
URL, when present, is nonempty and either was passed through unchanged
(it starts with `http`) or is some raw reference resolved against the fixed
base. -/
def urlOk (o : Option String) : Prop :=
  ∀ s, o = some s →
    s ≠ "" ∧ (strStartsWith s "http" = true ∨ ∃ q : String, q ≠ "" ∧ s = urljoinBase q)

/-! ### Concrete sample documents for witnesses and counterexamples -/

def headerRow : RowRec := { cells := ["Title", "Date"], anchors := [] }

def dataRow1 : RowRec :=
  { cells := ["row one", "2024-01-01"],
    anchors := [{ text := "pdf", href := some "/docs/a.pdf" },
                { text := "dead", href := none }] }

def dataRow2 : RowRec := { cells := ["only one cell"], anchors := [] }

/-- A 3-row table: header, one well-formed data row, one 1-column row. -/
def sampleTable : TableRec := ⟨[headerRow, dataRow1, dataRow2]⟩

def sampleTableDoc : TableDoc := ⟨some sampleTable⟩

def noTableDoc : TableDoc := ⟨none⟩

def sampleHome : HomeDoc :=
  { marquee := some [{ text := "Admissions", href := "/admissions.php" }]
    counters := [{ label := "Students", value := "1200" }]
    imgs := [{ src := some "/img/logo.png" }, { src := none }] }

/-- A home page whose only image src starts with `http` yet has no scheme. -/
def badHome : HomeDoc :=
  { marquee := none, counters := [], imgs := [{ src := some "httpx.png" }] }

def sampleCard1 : CardRec := { nameTag := some "Dr. A", img := some "/img/a.jpg" }

def sampleCard2 : CardRec := { nameTag := none, img := none }

/-- Forms with a duplicate email, a form lacking an email input, and a
second distinct email, in document order. -/
def dupForms : List StaffForm :=
  [{ emailValue := some (some "a@x"), card := some sampleCard1 },
   { emailValue := some (some "a@x"), card := some sampleCard2 },
   { emailValue := none, card := some sampleCard1 },
   { emailValue := some (some "b@x"), card := some sampleCard2 }]

/-- Two forms with the same email where the first has no ancestor card. -/
def cardlessFirstForms : List StaffForm :=
  [{ emailValue := some (some "a@x"), card := none },
   { emailValue := some (some "a@x"), card := some sampleCard1 }]

def sampleStaff3 : List StaffRec :=
  [{ name := "A", email := some "a@x", photo := none, bio := none },
   { name := "B", email := some "b@x", photo := none, bio := none },
   { name := "C", email := some "c@x", photo := none, bio := none }]

/-- A deep-fetch result keyed by the email, to make positional mixups
observable. -/
def sampleFetch : Option String → BioMap :=
  fun e => match e with
  | some s => [(s, BioVal.str s)]
  | none => []

def sampleDivs : List BioDiv :=
  [{ id := some "content-research_areas", liTexts := ["ML", "NLP"], text := "ML NLP" },
   { id := some "content-about_me", liTexts := [], text := "Hi there" },
   { id := some "other", liTexts := ["x"], text := "x" },
   { id := none, liTexts := [], text := "y" }]

/-- An institute page with neither `rgukt-content` nor `main-data` present. -/
def noContainerInst : InstDoc := ⟨none, []⟩

/-! ## Helper lemmas -/

theorem data_ne_nil {q : String} (h : q ≠ "") : q.data ≠ [] := by
  intro hd
  apply h
  cases q with
  | mk l =>
    simp only at hd
    subst hd
    rfl

theorem joinHier_ne_nil (r : List Char) : joinHier r ≠ [] := by
  unfold joinHier
  split
  · intro h
    rcases List.append_eq_nil.mp h with ⟨h1, _⟩
    exact absurd h1 (by decide)
  · intro h
    rcases List.append_eq_nil.mp h with ⟨h2, _⟩
    rcases List.append_eq_nil.mp h2 with ⟨h3, _⟩
    revert h3
    split
    · intro h4
      exact absurd h4 (by decide)
    · intro h4
      rcases List.append_eq_nil.mp h4 with ⟨h5, _⟩
      exact absurd h5 (by decide)

theorem urljoinBase_ne_empty {q : String} (h : q ≠ "") : urljoinBase q ≠ "" := by
  intro he
  have hd : urljoinChars q.data = [] := by
    have := congrArg String.data he
    simpa [urljoinBase] using this
  revert hd
  unfold urljoinChars
  split
  · split
    · exact joinHier_ne_nil _
    · exact data_ne_nil h
  · exact joinHier_ne_nil _

theorem startsWith_http_ne_empty {s : String} (h : strStartsWith s "http" = true) :
    s ≠ "" := by
  intro he
  subst he
  exact absurd h (by decide)

/-- Every value `get_abs_url` ever returns satisfies the emitted-URL
invariant. -/
theorem get_abs_url_ok (p : Option String) : urlOk (get_abs_url p) := by
  intro s hs
  cases p with
  | none => simp [get_abs_url] at hs
  | some q =>
    by_cases h1 : q = "" ∨ q = "#"
    · simp [get_abs_url, h1] at hs
    · by_cases h2 : strStartsWith q "http" = true
      · have hq : s = q := by
          simp [get_abs_url, h1, h2] at hs
          exact hs.symm
        subst hq
        exact ⟨startsWith_http_ne_empty h2, Or.inl h2⟩
      · have hq : s = urljoinBase q := by
          simp [get_abs_url, h1, h2] at hs
          exact hs.symm
        have hne : q ≠ "" := fun he => h1 (Or.inl he)
        subst hq
        exact ⟨urljoinBase_ne_empty hne, Or.inr ⟨q, hne, rfl⟩⟩

/-- The generic-table loop as a `filterMap` over the data rows. -/
theorem table_foldl_eq (rows : List RowRec) (acc : List TableRowRec) :
    rows.foldl
      (fun results row =>
        match row.cells with
        | c0 :: c1 :: _ =>
          results ++ [{ title := c0, date := c1, links := rowLinks row }]
        | _ => results)
      acc
    = acc ++ rows.filterMap emitRow := by
  induction rows generalizing acc with
  | nil => simp
  | cons r rest ih =>
    rw [List.foldl_cons, List.filterMap_cons]
    cases h : r.cells with
    | nil => simp only [h, emitRow]; rw [ih]
    | cons c0 tl =>
      cases tl with
      | nil => simp only [h, emitRow]; rw [ih]
      | cons c1 tl2 =>
        simp only [h, emitRow]
        rw [ih, List.append_assoc]
        rfl

theorem parse_generic_table_eq (t : TableRec) :
    parse_generic_table ⟨some t⟩ = (t.rows.drop 1).filterMap emitRow := by
  rw [parse_generic_table]
  exact table_foldl_eq _ []

/-- The emitted staff records are exactly the kept forms' records. -/
theorem extractStaff_eq_map (forms : List StaffForm) (seen : List (Option String)) :
    extractStaff forms seen = (keptForms forms seen).map recOf := by
  induction forms generalizing seen with
  | nil => rfl
  | cons f rest ih =>
    cases he : f.emailValue with
    | none => simp only [extractStaff, keptForms, he]; exact ih seen
    | some e =>
      by_cases hs : e ∈ seen
      · simp only [extractStaff, keptForms, he, if_pos hs]; exact ih seen
      · cases hc : f.card with
        | none => simp only [extractStaff, keptForms, he, if_neg hs, hc]; exact ih _
        | some c =>
          simp only [extractStaff, keptForms, he, if_neg hs, hc, List.map_cons]
          rw [ih]
          simp [recOf, he, hc]

/-- The kept forms are a sublist of the input forms (document order). -/
theorem keptForms_sublist (forms : List StaffForm) (seen : List (Option String)) :
    List.Sublist (keptForms forms seen) forms := by
  induction forms generalizing seen with
  | nil => simp [keptForms]
  | cons f rest ih =>
    cases he : f.emailValue with
    | none => simp only [keptForms, he]; exact (ih seen).cons f
    | some e =>
      by_cases hs : e ∈ seen
      · simp only [keptForms, he, if_pos hs]; exact (ih seen).cons f
      · cases hc : f.card with
        | none => simp only [keptForms, he, if_neg hs, hc]; exact (ih _).cons f
        | some c => simp only [keptForms, he, if_neg hs, hc]; exact (ih _).cons₂ f

/-- Complete characterization of the records carrying a given email value:
nothing if the email was already seen; otherwise the outcome is decided by
the first form carrying that email (and by whether it sits in a card). -/
theorem extractStaff_filter (forms : List StaffForm) (seen : List (Option String))
    (e : Option String) :
    (extractStaff forms seen).filter (fun r => r.email == e)
    = if e ∈ seen then []
      else
        match forms.find? (fun f => f.emailValue == some e) with
        | some f =>
          match f.card with
          | some c => [staffOfCard e c]
          | none => []
        | none => [] := by
  induction forms generalizing seen with
  | nil =>
    simp only [extractStaff, List.filter_nil, List.find?_nil]
    split <;> rfl
  | cons f rest ih =>
    cases he : f.emailValue with
    | none =>
      have h1 : extractStaff (f :: rest) seen = extractStaff rest seen := by
        simp [extractStaff, he]
      have h2 : List.find? (fun g => g.emailValue == some e) (f :: rest)
          = List.find? (fun g => g.emailValue == some e) rest := by
        simp [List.find?_cons, he]
      rw [h1, h2, ih seen]
    | some e0 =>
      by_cases hs : e0 ∈ seen
      · have h1 : extractStaff (f :: rest) seen = extractStaff rest seen := by
          simp [extractStaff, he, hs]
        by_cases heq : e0 = e
        · subst heq
          rw [h1, ih seen, if_pos hs, if_pos hs]
        · have h2 : List.find? (fun g => g.emailValue == some e) (f :: rest)
              = List.find? (fun g => g.emailValue == some e) rest := by
            simp [List.find?_cons, he, heq]
          rw [h1, h2, ih seen]
      · by_cases heq : e0 = e
        · subst heq
          have h2 : List.find? (fun g => g.emailValue == some e0) (f :: rest)
              = some f := by
            simp [List.find?_cons, he]
          rw [h2]
          cases hc : f.card with
          | none =>
            have h1 : extractStaff (f :: rest) seen
                = extractStaff rest (e0 :: seen) := by
              simp [extractStaff, he, hs, hc]
            rw [h1, ih (e0 :: seen), if_pos (List.mem_cons_self e0 seen)]
            simp [hc]
          | some c =>
            have h1 : extractStaff (f :: rest) seen
                = staffOfCard e0 c :: extractStaff rest (e0 :: seen) := by
              simp [extractStaff, he, hs, hc]
            rw [h1, List.filter_cons]
            have hhead : ((staffOfCard e0 c).email == e0) = true := by
              simp [staffOfCard]
            rw [hhead, if_pos rfl, ih (e0 :: seen),
              if_pos (List.mem_cons_self e0 seen)]
            simp [hc]
            rw [if_neg hs]
        · have hmemiff : (e ∈ e0 :: seen) ↔ (e ∈ seen) := by
            constructor
            · intro h
              rcases List.mem_cons.mp h with h1 | h1
              · exact absurd h1 (Ne.symm heq)
              · exact h1
            · intro h
              exact List.mem_cons_of_mem _ h
          have h2 : List.find? (fun g => g.emailValue == some e) (f :: rest)
              = List.find? (fun g => g.emailValue == some e) rest := by
            simp [List.find?_cons, he, heq]
          rw [h2]
          cases hc : f.card with
          | none =>
            have h1 : extractStaff (f :: rest) seen
                = extractStaff rest (e0 :: seen) := by
              simp [extractStaff, he, hs, hc]
            rw [h1, ih (e0 :: seen)]
            by_cases hmem : e ∈ seen
            · rw [if_pos (hmemiff.mpr hmem), if_pos hmem]
            · rw [if_neg (fun h => hmem (hmemiff.mp h)), if_neg hmem]
          | some c =>
            have h1 : extractStaff (f :: rest) seen
                = staffOfCard e0 c :: extractStaff rest (e0 :: seen) := by
              simp [extractStaff, he, hs, hc]
            rw [h1, List.filter_cons]
            have hhead : ((staffOfCard e0 c).email == e) = false := by
              simp [staffOfCard, heq]
            rw [hhead, if_neg (by simp), ih (e0 :: seen)]
            by_cases hmem : e ∈ seen
            · rw [if_pos (hmemiff.mpr hmem), if_pos hmem]
            · rw [if_neg (fun h => hmem (hmemiff.mp h)), if_neg hmem]

/-- The slot fold preserves length. -/
theorem gatherFold_length (tasks : List BioMap) (sched : List Nat)
    (acc : List (Option BioMap)) :
    (sched.foldl (fun a k => a.set k tasks[k]?) acc).length = acc.length := by
  induction sched generalizing acc with
  | nil => rfl
  | cons k rest ih => rw [List.foldl_cons, ih, List.length_set]

/-- Value of slot `i` after running the completion schedule: the task's own
result if `i` was scheduled, the initial slot value otherwise. -/
theorem gatherFold_getElem? (tasks : List BioMap) (sched : List Nat)
    (acc : List (Option BioMap)) (i : Nat) (hi : i < acc.length) :
    (sched.foldl (fun a k => a.set k tasks[k]?) acc)[i]?
    = if i ∈ sched then some tasks[i]? else acc[i]? := by
  induction sched generalizing acc with
  | nil => simp
  | cons k rest ih =>
    rw [List.foldl_cons, ih _ (by simpa using hi)]
    by_cases hmem : i ∈ rest
    · simp [hmem]
    · by_cases hik : k = i
      · subst hik
        simp [hmem, List.getElem?_set, hi]
      · have hki : ¬i = k := fun h => hik h.symm
        simp [hmem, hik, hki, List.getElem?_set]

/-- `asyncio.gather`: for any completion order that completes every task,
the result list is the task results in task order. -/
theorem gatherSched_perm (tasks : List BioMap) (sched : List Nat)
    (h : sched.Perm (List.range tasks.length)) :
    gatherSched tasks sched = tasks.map some := by
  apply List.ext_getElem?
  intro i
  by_cases hi : i < tasks.length
  · rw [gatherSched, gatherFold_getElem? _ _ _ _ (by simpa using hi)]
    have hm : i ∈ sched := h.mem_iff.mpr (List.mem_range.mpr hi)
    rw [if_pos hm, List.getElem?_eq_getElem hi, List.getElem?_map,
      List.getElem?_eq_getElem hi]
    rfl
  · have h1 : (gatherSched tasks sched).length = tasks.length := by
      rw [gatherSched, gatherFold_length, List.length_replicate]
    rw [List.getElem?_eq_none (by omega), List.getElem?_eq_none (by simp; omega)]

/-- Attaching a per-record value by zipping with a mapped list. -/
theorem zip_map_attach (l : List StaffRec) (g : StaffRec → Option BioMap) :
    (l.zip (l.map g)).map (fun p => { p.1 with bio := p.2 })
    = l.map (fun s => { s with bio := g s }) := by
  induction l with
  | nil => rfl
  | cons a t ih => simp only [List.map_cons, List.zip_cons_cons, ih]

/-- Python dict assignment appends when the key is fresh. -/
theorem dictInsert_notMem (l : BioMap) (k : String) (v : BioVal)
    (h : ∀ p ∈ l, p.1 ≠ k) : dictInsert l k v = l ++ [(k, v)] := by
  rw [dictInsert, if_neg]
  simp only [List.any_eq_true, beq_iff_eq, not_exists]
  intro p
  intro hp
  rcases hp with ⟨hmem, hk⟩
  exact h p hmem hk

/-- The deep-faculty fold, when the derived keys are pairwise distinct and
disjoint from the accumulator's keys, appends one pair per matching div. -/
theorem deepFold_eq (divs : List BioDiv) (acc : BioMap)
    (hnd : ((divs.filter matchesContent).map divKey).Nodup)
    (hdisj : ∀ p ∈ acc, p.1 ∉ (divs.filter matchesContent).map divKey) :
    divs.foldl
      (fun details d =>
        if matchesContent d then dictInsert details (divKey d) (divVal d)
        else details)
      acc
    = acc ++ (divs.filter matchesContent).map (fun d => (divKey d, divVal d)) := by
  induction divs generalizing acc with
  | nil => simp
  | cons d rest ih =>
    by_cases hm : matchesContent d
    · have hfc : List.filter matchesContent (d :: rest)
          = d :: List.filter matchesContent rest := by
        rw [List.filter_cons, if_pos hm]
      rw [hfc, List.map_cons] at hnd hdisj ⊢
      have hnd' := List.nodup_cons.mp hnd
      have hk : ∀ p ∈ acc, p.1 ≠ divKey d := by
        intro p hp h
        exact hdisj p hp (by rw [h]; exact List.mem_cons_self _ _)
      have hdisj2 : ∀ p ∈ acc ++ [(divKey d, divVal d)],
          p.1 ∉ List.map divKey (List.filter matchesContent rest) := by
        intro p hp
        rcases List.mem_append.mp hp with hp1 | hp1
        · intro hmem
          exact hdisj p hp1 (List.mem_cons_of_mem _ hmem)
        · have hpk : p = (divKey d, divVal d) := by simpa using hp1
          subst hpk
          exact hnd'.1
      rw [List.foldl_cons, if_pos hm, dictInsert_notMem _ _ _ hk,
        ih _ hnd'.2 hdisj2]
      simp [List.append_assoc]
    · have hfc : List.filter matchesContent (d :: rest)
          = List.filter matchesContent rest := by
        rw [List.filter_cons, if_neg (by simpa using hm)]
      rw [hfc] at hnd hdisj ⊢
      rw [List.foldl_cons, if_neg hm, ih _ hnd hdisj]

/-- After a `put`, looking the key up finds exactly the freshly inserted
entry (capacity eviction drops oldest entries, never the new one). -/
theorem put_find {V : Type} (c : TTLCache V) (T : Nat) (k : String) (v : V) :
    (c.put T k v).entries.find? (fun e => e.1 == k) = some (k, v, T) := by
  unfold TTLCache.put
  dsimp only
  have hkept : ∀ e ∈ c.entries.filter
      (fun e => !(e.1 == k) && decide (T < e.2.2 + CACHE_TTL)),
      ((fun e : String × V × Nat => e.1 == k) e) = false := by
    intro e he
    have hp := List.of_mem_filter he
    simp only [Bool.and_eq_true, Bool.not_eq_true'] at hp
    exact hp.1
  set kept := c.entries.filter
    (fun e => !(e.1 == k) && decide (T < e.2.2 + CACHE_TTL)) with hk
  have hfind : ∀ l : List (String × V × Nat),
      (∀ e ∈ l, ((fun e : String × V × Nat => e.1 == k) e) = false) →
      (l ++ [(k, v, T)]).find? (fun e => e.1 == k) = some (k, v, T) := by
    intro l hl
    rw [List.find?_append]
    have h1 : l.find? (fun e => e.1 == k) = none := by
      rw [List.find?_eq_none]
      intro x hx
      simp [hl x hx]
    rw [h1]
    simp [List.find?]
  have hM : CACHE_MAXSIZE = 200 := rfl
  split
  · next hlen =>
    have hm : kept.length + 1 - CACHE_MAXSIZE ≤ kept.length := by
      simp only [List.length_append, List.length_cons, List.length_nil] at hlen
      omega
    have hdrop : (kept ++ [(k, v, T)]).drop
        ((kept ++ [(k, v, T)]).length - CACHE_MAXSIZE)
        = kept.drop ((kept ++ [(k, v, T)]).length - CACHE_MAXSIZE) ++ [(k, v, T)] := by
      apply List.drop_append_of_le_length
      simp only [List.length_append, List.length_cons, List.length_nil]
      omega
    rw [hdrop]
    apply hfind
    intro e he
    exact hkept e (List.mem_of_mem_drop he)
  · exact hfind kept hkept

/-- Lookups strictly before `T + TTL` see the freshly inserted value. -/
theorem cache_get_put_lt {V : Type} (c : TTLCache V) (T t : Nat) (k : String)
    (v : V) (h : t < T + CACHE_TTL) : (c.put T k v).get t k = some v := by
  rw [TTLCache.get, put_find]
  simp [h]

/-- Lookups at or after `T + TTL` see no entry. -/
theorem cache_get_put_ge {V : Type} (c : TTLCache V) (T t : Nat) (k : String)
    (v : V) (h : T + CACHE_TTL ≤ t) : (c.put T k v).get t k = none := by
  rw [TTLCache.get, put_find]
  simp [Nat.not_lt.mpr h]

/-- The cache never exceeds its 200-entry capacity after a `put`. -/
theorem put_length_le {V : Type} (c : TTLCache V) (T : Nat) (k : String) (v : V) :
    (c.put T k v).entries.length ≤ CACHE_MAXSIZE := by
  unfold TTLCache.put
  dsimp only
  split
  · next hlen =>
    rw [List.length_drop]
    omega
  · next hlen =>
    omega

/-- The department cache keys for the two deep flags differ for every
department code (their lengths differ). -/
theorem deptKey_true_ne_false (code : String) :
    deptKey code true ≠ deptKey code false := by
  intro h
  have h1 : ("dept_" : String).length = 5 := rfl
  have h2 : ("_" : String).length = 1 := rfl
  have h3 : ("True" : String).length = 4 := rfl
  have h4 : ("False" : String).length = 5 := rfl
  have hT : deptKey code true = "dept_" ++ code ++ "_" ++ "True" := by
    simp [deptKey]
  have hF : deptKey code false = "dept_" ++ code ++ "_" ++ "False" := by
    simp [deptKey]
  rw [hT, hF] at h
  have hl := congrArg String.length h
  simp only [String.length_append, h1, h2, h3, h4] at hl
  omega

/-! ## Claims -/

/-- C2 (code_bug): a request to `/api/notifications` with `type=foo` — a
value outside the enumerated set — is not rejected before the upstream call:
the handler issues the upstream fetch (first component `true`) and returns a
parsed table, because the `enum=[...]` keyword in `Query(...)` is
documentation-only and the handler body performs no membership test. -/
theorem c2_invalid_type_reaches_upstream :
    ("foo" ∈ notifTypes → False)
  ∧ (news_tenders_careers emptyCache 0 "foo" sampleTableDoc).1 = true
  ∧ (news_tenders_careers emptyCache 0 "foo" sampleTableDoc).2.1
      = CacheVal.notifVal (parse_generic_table sampleTableDoc) := by
  refine ⟨by decide, by decide, by decide⟩

/-- C3 counterexample: on input `"httpx"` — which does not have a scheme —
`get_abs_url` returns the input unchanged instead of joining it against the
base, contradicting the claim's "otherwise it returns the input joined
against the fixed base address" (`resolveSpec` states the claim's words). -/
theorem c3_counterexample :
    get_abs_url (some "httpx") = some "httpx"
  ∧ hasScheme "httpx" = false
  ∧ get_abs_url (some "httpx") ≠ resolveSpec (some "httpx")
  ∧ resolveSpec (some "httpx") = some "https://rguktong.ac.in/httpx" := by
  refine ⟨by decide, by decide, by decide, by decide⟩

/-- C3 (amended): `get_abs_url` is total; it returns `none` for `None`,
empty and `"#"` inputs; it returns the input unchanged exactly when the
input starts with the literal `"http"` (rather than when it has a scheme);
otherwise it joins the input against the fixed base by standard relative-URL
resolution.  `resolve("/x")` yields `BASE/x` and `resolve("http://y")`
yields `http://y` unchanged. -/
theorem c3_get_abs_url_amended :
    get_abs_url none = none
  ∧ get_abs_url (some "") = none
  ∧ get_abs_url (some "#") = none
  ∧ (∀ p : String, p ≠ "" → p ≠ "#" → strStartsWith p "http" = true →
       get_abs_url (some p) = some p)
  ∧ (∀ p : String, p ≠ "" → p ≠ "#" → strStartsWith p "http" = false →
       get_abs_url (some p) = some (urljoinBase p))
  ∧ get_abs_url (some "/x") = some "https://rguktong.ac.in/x"
  ∧ get_abs_url (some "http://y") = some "http://y" := by
  refine ⟨rfl, by decide, by decide, ?_, ?_, by decide, by decide⟩
  · intro p h1 h2 h3
    simp [get_abs_url, h1, h2, h3]
  · intro p h1 h2 h3
    simp [get_abs_url, h1, h2, h3]

/-- Witness for C3: the branch conditions discharged at concrete inputs. -/
theorem c3_get_abs_url_amended_witness :
    get_abs_url (some "http://y") = some "http://y"
  ∧ get_abs_url (some "/x") = some (urljoinBase "/x") := by
  constructor
  · exact c3_get_abs_url_amended.2.2.2.1 "http://y" (by decide) (by decide) (by decide)
  · exact c3_get_abs_url_amended.2.2.2.2.1 "/x" (by decide) (by decide) (by decide)

/-- C7 (confirmed): `parse_generic_table` drops the first row of the first
table unconditionally; a subsequent row contributes exactly when it has at
least two cell columns (first cell title, second cell date); every
href-bearing anchor of the row, regardless of column, appears among the
row's link entries. -/
theorem c7_generic_table :
    (∀ (header : RowRec) (rows : List RowRec),
       parse_generic_table ⟨some ⟨header :: rows⟩⟩ = rows.filterMap emitRow)
  ∧ (∀ (r : RowRec) (c0 c1 : String) (rest : List String),
       r.cells = c0 :: c1 :: rest →
       emitRow r = some { title := c0, date := c1, links := rowLinks r })
  ∧ (∀ r : RowRec, r.cells.length < 2 → emitRow r = none)
  ∧ (∀ (r : RowRec) (a : AnchorEl) (h : String), a ∈ r.anchors → a.href = some h →
       ({ text := a.text, url := get_abs_url (some h) } : LinkEntry) ∈ rowLinks r) := by
  refine ⟨?_, ?_, ?_, ?_⟩
  · intro header rows
    rw [parse_generic_table_eq]
    simp
  · intro r c0 c1 rest h
    simp [emitRow, h]
  · intro r h
    cases hc : r.cells with
    | nil => simp [emitRow, hc]
    | cons c0 tl =>
      cases tl with
      | nil => simp [emitRow, hc]
      | cons c1 tl2 =>
        rw [hc] at h
        simp at h
        omega
  · intro r a h hmem hhref
    rw [rowLinks]
    apply List.mem_map.mpr
    refine ⟨a, ?_, ?_⟩
    · exact List.mem_filter.mpr ⟨hmem, by simp [hhref]⟩
    · simp [hhref]

/-- Witness for C7: the 3-row sample table (header + well-formed row +
1-column row) yields exactly one TableRow, with the base-resolved link. -/
theorem c7_generic_table_witness :
    parse_generic_table sampleTableDoc
      = [{ title := "row one", date := "2024-01-01",
           links := [{ text := "pdf",
                       url := some "https://rguktong.ac.in/docs/a.pdf" }] }] := by
  have h := c7_generic_table.1 headerRow [dataRow1, dataRow2]
  rw [show sampleTableDoc = ⟨some ⟨headerRow :: [dataRow1, dataRow2]⟩⟩ from rfl, h]
  decide

/-- C8 counterexample: absence of the assumed-present targets does not
raise.  A document with no table makes `parse_generic_table` return the
empty list, and an institute page with neither content-container class makes
the sections come out empty while the request completes normally — both the
graceful degradation the claim says these two lookups do not get. -/
theorem c8_counterexample :
    parse_generic_table noTableDoc = []
  ∧ instSections noContainerInst = []
  ∧ (institute_info emptyCache 0 "aboutrgukt" noContainerInst).2.1
      = CacheVal.instVal { page := "aboutrgukt", sections := [], profiles := [] } := by
  refine ⟨rfl, rfl, by decide⟩

/-- C8 (amended): when the first table (generic table extractor) or the
primary content container (informational-section extractor) is absent, the
extraction does not raise: it degrades to an empty result, like the other
missing-element cases. -/
theorem c8_missing_target_degrades :
    (∀ doc : TableDoc, doc.table = none → parse_generic_table doc = [])
  ∧ (∀ doc : InstDoc, doc.contentArea = none → instSections doc = []) := by
  constructor
  · intro doc h
    rw [parse_generic_table, h]
  · intro doc h
    rw [instSections, h]

/-- Witness for C8: the degradation observed on concrete empty documents. -/
theorem c8_missing_target_degrades_witness :
    parse_generic_table noTableDoc = [] ∧ instSections noContainerInst = [] :=
  ⟨c8_missing_target_degrades.1 noTableDoc rfl,
   c8_missing_target_degrades.2 noContainerInst rfl⟩

/-- C1 counterexample: `/api/institute/{page}` and `/api/notifications` key
the shared cache by the bare page/type string (and `/api/home` by the bare
`"home"`), so two requests to different endpoints with equal strings share
one cache entry: after `/api/notifications?type=news_updates` fills the
cache, `/api/institute/news_updates` is a cache hit (no fetch) and returns
the notifications table instead of an institute page. -/
theorem c1_counterexample :
    instituteKey "news_updates" = notificationsKey "news_updates"
  ∧ instituteKey "home" = homeKey
  ∧ (news_tenders_careers emptyCache 0 "news_updates" sampleTableDoc).1 = true
  ∧ institute_info
      (news_tenders_careers emptyCache 0 "news_updates" sampleTableDoc).2.2
      1 "news_updates" noContainerInst
      = (false,
         CacheVal.notifVal (parse_generic_table sampleTableDoc),
         (news_tenders_careers emptyCache 0 "news_updates" sampleTableDoc).2.2) := by
  refine ⟨rfl, rfl, by decide, by decide⟩

/-- C1 (amended): within each endpoint the cache key is deterministic and
includes the parameters that affect output — in particular the department
key includes both the code and the deep flag, so
`/api/departments/{code}?deep=true` and `?deep=false` never share an entry —
and on every endpoint a cache hit short-circuits the upstream fetch and
extraction, returning the cached value unchanged.  (Cross-endpoint key
isolation fails: see the counterexample.) -/
theorem c1_cache_keys_amended :
    (∀ code : String, deptKey code true ≠ deptKey code false)
  ∧ (∀ (c : TTLCache CacheVal) (now : Nat) (page : String) (doc : InstDoc)
       (v : CacheVal), c.get now (instituteKey page) = some v →
       institute_info c now page doc = (false, v, c))
  ∧ (∀ (c : TTLCache CacheVal) (now : Nat) (ty : String) (doc : TableDoc)
       (v : CacheVal), c.get now (notificationsKey ty) = some v →
       news_tenders_careers c now ty doc = (false, v, c))
  ∧ (∀ (c : TTLCache CacheVal) (now : Nat) (code : String) (deep : Bool)
       (forms : List StaffForm) (world : Option String → FetchOutcome)
       (sched : List Nat) (v : CacheVal),
       c.get now (deptKey code deep) = some v →
       department_staff c now code deep forms world sched = (false, v, c))
  ∧ (∀ (c : TTLCache CacheVal) (now : Nat) (doc : HomeDoc) (v : CacheVal),
       c.get now homeKey = some v → home_api c now doc = (false, v, c))
  ∧ (∀ (c : TTLCache CacheVal) (now : Nat) (page : String) (doc : AcadDoc)
       (v : CacheVal), c.get now (academicsKey page) = some v →
       academic_records c now page doc = (false, v, c)) := by
  refine ⟨deptKey_true_ne_false, ?_, ?_, ?_, ?_, ?_⟩
  · intro c now page doc v h
    simp [institute_info, h]
  · intro c now ty doc v h
    simp [news_tenders_careers, h]
  · intro c now code deep forms world sched v h
    simp [department_staff, h]
  · intro c now doc v h
    simp [home_api, h]
  · intro c now page doc v h
    simp [academic_records, h]

/-- Witness for C1: deep-flag key isolation at `CSE`, and a concrete cache
hit that skips the fetch and returns the cached value. -/
theorem c1_cache_keys_amended_witness :
    deptKey "CSE" true ≠ deptKey "CSE" false
  ∧ news_tenders_careers (emptyCache.put 0 "tenders" (CacheVal.notifVal [])) 1
      "tenders" sampleTableDoc
      = (false, CacheVal.notifVal [],
         emptyCache.put 0 "tenders" (CacheVal.notifVal [])) := by
  constructor
  · exact c1_cache_keys_amended.1 "CSE"
  · exact c1_cache_keys_amended.2.2.1 _ 1 "tenders" sampleTableDoc _ (by decide)

/-- C4 (confirmed): `parse_deep_faculty` never propagates an exception: a
non-200 response yields the empty mapping, any transport/parse failure
yields exactly the sentinel mapping, and on success (with the derived keys
distinct, as on real profile pages) the mapping has one entry per
`content-`-identified block, keyed by the transformed identifier
(`content-` removed, underscores to spaces, title-cased) and valued by the
block's list-item texts when any exist, else its full text. -/
theorem c4_parse_deep_faculty_contract :
    (∀ (status : Nat) (divs : List BioDiv), status ≠ 200 →
       parse_deep_faculty (FetchOutcome.resp status divs) = [])
  ∧ parse_deep_faculty FetchOutcome.failure
      = [("error", BioVal.str "Deep fetch failed")]
  ∧ (∀ divs : List BioDiv,
       ((divs.filter matchesContent).map divKey).Nodup →
       parse_deep_faculty (FetchOutcome.resp 200 divs)
         = (divs.filter matchesContent).map
             (fun d => (divKey d,
               if d.liTexts = [] then BioVal.str d.text
               else BioVal.items d.liTexts))) := by
  refine ⟨?_, rfl, ?_⟩
  · intro status divs h
    simp [parse_deep_faculty, h]
  · intro divs hnd
    rw [parse_deep_faculty, if_pos rfl,
      deepFold_eq divs [] hnd (by intro p hp; simp at hp)]
    simp [divVal]

/-- Witness for C4: the contract evaluated on a 404, on a failure and on a
concrete successful profile page. -/
theorem c4_parse_deep_faculty_contract_witness :
    parse_deep_faculty (FetchOutcome.resp 404 sampleDivs) = []
  ∧ parse_deep_faculty FetchOutcome.failure
      = [("error", BioVal.str "Deep fetch failed")]
  ∧ parse_deep_faculty (FetchOutcome.resp 200 sampleDivs)
      = [("Research Areas", BioVal.items ["ML", "NLP"]),
         ("About Me", BioVal.str "Hi there")] := by
  refine ⟨c4_parse_deep_faculty_contract.1 404 sampleDivs (by decide),
    c4_parse_deep_faculty_contract.2.1, ?_⟩
  rw [c4_parse_deep_faculty_contract.2.2 sampleDivs (by decide)]
  decide

/-- C5 (confirmed): with `deep=false` the staff list is returned unchanged;
with `deep=true`, one deep-bio fetch is issued per record and, for every
completion order of the gathered calls (any permutation schedule), the i-th
result attaches to the i-th record by original list position. -/
theorem c5_fanout_positional (staff : List StaffRec)
    (fetch : Option String → BioMap) (sched : List Nat)
    (hperm : sched.Perm (List.range staff.length)) :
    departmentAttach staff false fetch sched = staff
  ∧ departmentAttach staff true fetch sched
      = staff.map (fun s => { s with bio := some (fetch s.email) }) := by
  constructor
  · rfl
  · rw [departmentAttach, if_pos rfl]
    dsimp only
    have hlen : (staff.map (fun s => fetch s.email)).length = staff.length := by
      simp
    rw [gatherSched_perm _ sched (by rw [hlen]; exact hperm), List.map_map]
    exact zip_map_attach staff _

/-- Witness for C5: records `[A, B, C]` with the reverse completion order
`[2, 1, 0]` still receive their own bios, by position. -/
theorem c5_fanout_positional_witness :
    departmentAttach sampleStaff3 true sampleFetch [2, 1, 0]
      = [{ name := "A", email := some "a@x", photo := none,
           bio := some [("a@x", BioVal.str "a@x")] },
         { name := "B", email := some "b@x", photo := none,
           bio := some [("b@x", BioVal.str "b@x")] },
         { name := "C", email := some "c@x", photo := none,
           bio := some [("c@x", BioVal.str "c@x")] }]
  ∧ departmentAttach sampleStaff3 false sampleFetch [2, 1, 0] = sampleStaff3 := by
  have h := c5_fanout_positional sampleStaff3 sampleFetch [2, 1, 0] (by decide)
  refine ⟨?_, h.1⟩
  rw [h.2]
  decide

/-- C6 counterexample: a page with two forms carrying the same email where
the first form has no recognized ancestor card emits zero StaffRecords for
that email — not exactly one, as the claim states for every page with two
or more same-email forms. -/
theorem c6_counterexample :
    cardlessFirstForms.countP (fun f => f.emailValue == some (some "a@x")) = 2
  ∧ extractStaff cardlessFirstForms [] = [] := by
  refine ⟨by decide, by decide⟩

/-- C6 (amended): at most one StaffRecord is emitted per email value; the
records carrying an email are decided by the first form (in document order)
carrying it — one record from that form when it sits in a recognized card
container, none otherwise; duplicates are silently dropped; output order
follows document order of the forms; and a form without an email field is
skipped. -/
theorem c6_staff_extraction_amended (forms : List StaffForm) (e : Option String) :
    ((extractStaff forms []).filter (fun r => r.email == e)).length ≤ 1
  ∧ ((extractStaff forms []).filter (fun r => r.email == e))
      = (match forms.find? (fun f => f.emailValue == some e) with
         | some f =>
           match f.card with
           | some c => [staffOfCard e c]
           | none => []
         | none => [])
  ∧ (∃ kept : List StaffForm, List.Sublist kept forms
       ∧ extractStaff forms [] = kept.map recOf)
  ∧ (∀ f : StaffForm, f.emailValue = none →
       extractStaff (f :: forms) [] = extractStaff forms []) := by
  have hchar := extractStaff_filter forms [] e
  rw [if_neg (List.not_mem_nil e)] at hchar
  refine ⟨?_, hchar,
    ⟨keptForms forms [], keptForms_sublist forms [], extractStaff_eq_map forms []⟩,
    ?_⟩
  · rw [hchar]
    cases hf : forms.find? (fun f => f.emailValue == some e) with
    | none => simp
    | some f =>
      cases hc : f.card with
      | none => simp [hc]
      | some c => simp [hc]
  · intro f hf
    simp [extractStaff, hf]

/-- Witness for C6: on the duplicate-email sample page, one record for the
duplicated email (from its first form), document order preserved, and a
form without an email input contributing nothing. -/
theorem c6_staff_extraction_amended_witness :
    ((extractStaff dupForms []).filter (fun r => r.email == some "a@x"))
      = [staffOfCard (some "a@x") sampleCard1]
  ∧ extractStaff ({ emailValue := none, card := some sampleCard1 } :: dupForms) []
      = extractStaff dupForms []
  ∧ extractStaff dupForms []
      = [staffOfCard (some "a@x") sampleCard1,
         staffOfCard (some "b@x") sampleCard2] := by
  refine ⟨?_, ?_, by decide⟩
  · rw [(c6_staff_extraction_amended dupForms (some "a@x")).2.1]
    decide
  · exact (c6_staff_extraction_amended dupForms (some "a@x")).2.2.2
      { emailValue := none, card := some sampleCard1 } rfl

/-- C9 counterexample: a home page whose image `src` is `"httpx.png"` emits
that string verbatim — it carries no scheme (so it is not an absolute URL)
and is not resolved against the fixed base (it does not even start with the
base address, and differs from its own base-resolution) — refuting the
claim that every emitted URL is absolute or base-resolved. -/
theorem c9_counterexample :
    (home_extract badHome).images = [some "httpx.png"]
  ∧ hasScheme "httpx.png" = false
  ∧ strStartsWith "httpx.png" "https://rguktong.ac.in" = false
  ∧ "httpx.png" ≠ urljoinBase "httpx.png" := by
  refine ⟨by decide, by decide, by decide, by decide⟩

/-- C9 (amended): every URL emitted by the extractors (home images and
announcement links, institute profile photos, table links, staff photos,
academic links) is nonempty and either starts with the literal `http`
(passed through unchanged) or is a raw reference resolved against the fixed
base; a missing or placeholder reference is represented as absent, never as
an empty string. -/
theorem c9_url_invariant_amended :
    (∀ (doc : HomeDoc) (o : Option String),
       o ∈ (home_extract doc).images → urlOk o)
  ∧ (∀ (doc : HomeDoc) (a : Announcement),
       a ∈ (home_extract doc).announcements → urlOk a.link)
  ∧ (∀ (cards : List CardDiv) (p : ProfileRec), p ∈ cardsOf cards → urlOk p.photo)
  ∧ (∀ (doc : TableDoc) (row : TableRowRec) (l : LinkEntry),
       row ∈ parse_generic_table doc → l ∈ row.links → urlOk l.url)
  ∧ (∀ (forms : List StaffForm) (r : StaffRec),
       r ∈ extractStaff forms [] → urlOk r.photo)
  ∧ (∀ (ns : List ANode) (g : LinkGroupRec) (l : AcadLink),
       g ∈ linkGroupsOf ns → l ∈ g.links → urlOk l.url) := by
  have hca : ∀ (ms : List ANode) (l : AcadLink), l ∈ collectAnchors ms → urlOk l.url := by
    intro ms
    induction ms with
    | nil => intro l hl; simp [collectAnchors] at hl
    | cons n rest ih =>
      intro l hl
      rw [collectAnchors] at hl
      by_cases hn : isH13 n = true
      · rw [if_pos hn] at hl
        simp at hl
      · rw [if_neg hn] at hl
        rcases List.mem_append.mp hl with h1 | h1
        · by_cases ha : (n.name == some "a") = true
          · rw [if_pos ha] at h1
            have hx : l = { label := n.text, url := get_abs_url (some n.href) } := by
              simpa using h1
            subst hx
            exact get_abs_url_ok (some n.href)
          · rw [if_neg ha] at h1
            simp at h1
        · exact ih l h1
  refine ⟨?_, ?_, ?_, ?_, ?_, ?_⟩
  · intro doc o ho
    simp only [home_extract] at ho
    rcases List.mem_map.mp ho with ⟨i, _, rfl⟩
    exact get_abs_url_ok i.src
  · intro doc a ha
    cases hm : doc.marquee with
    | none => simp [home_extract, hm] at ha
    | some anchors =>
      simp only [home_extract, hm] at ha
      rcases List.mem_map.mp ha with ⟨x, _, rfl⟩
      exact get_abs_url_ok (some x.href)
  · intro cards p hp
    rcases List.mem_filterMap.mp hp with ⟨cd, _, hcd⟩
    rcases Option.map_eq_some'.mp hcd with ⟨n, _, hn⟩
    subst hn
    cases himg : cd.img with
    | some s =>
      simp only [himg]
      exact get_abs_url_ok (some s)
    | none =>
      intro s hs
      simp [himg] at hs
  · intro doc row l hrow hl
    cases doc with
    | mk t =>
      cases t with
      | none => simp [parse_generic_table] at hrow
      | some tb =>
        rw [parse_generic_table_eq] at hrow
        rcases List.mem_filterMap.mp hrow with ⟨r, _, hr⟩
        have hlinks : row.links = rowLinks r := by
          rw [emitRow] at hr
          cases hc : r.cells with
          | nil => rw [hc] at hr; cases hr
          | cons c0 tl =>
            cases tl with
            | nil => rw [hc] at hr; cases hr
            | cons c1 tl2 =>
              rw [hc] at hr
              cases hr
              rfl
        rw [hlinks] at hl
        rcases List.mem_map.mp hl with ⟨a, _, rfl⟩
        exact get_abs_url_ok a.href
  · intro forms r hr
    rw [extractStaff_eq_map] at hr
    rcases List.mem_map.mp hr with ⟨f, _, rfl⟩
    cases himg : (f.card.getD { nameTag := none, img := none }).img with
    | some s =>
      simp only [recOf, staffOfCard, himg]
      exact get_abs_url_ok (some s)
    | none =>
      intro s hs
      simp [recOf, staffOfCard, himg] at hs
  · intro ns g l hg hl
    induction ns with
    | nil => simp [linkGroupsOf] at hg
    | cons n rest ih =>
      rw [linkGroupsOf] at hg
      by_cases hn : isH13 n = true
      · rw [if_pos hn] at hg
        rcases List.mem_append.mp hg with h1 | h1
        · have hx : g = { header := n.text, links := collectAnchors rest } := by
            simpa using h1
          subst hx
          exact hca rest l (by simpa using hl)
        · exact ih h1
      · rw [if_neg hn] at hg
        simp only [List.nil_append] at hg
        exact ih hg

/-- Witness for C9: the invariant evaluated at a concrete emitted image URL
of the sample home page. -/
theorem c9_url_invariant_amended_witness :
    some "https://rguktong.ac.in/img/logo.png"
      ∈ (home_extract sampleHome).images
  ∧ ("https://rguktong.ac.in/img/logo.png" ≠ ""
     ∧ (strStartsWith "https://rguktong.ac.in/img/logo.png" "http" = true
        ∨ ∃ q : String, q ≠ ""
            ∧ "https://rguktong.ac.in/img/logo.png" = urljoinBase q)) := by
  have hmem : some "https://rguktong.ac.in/img/logo.png"
      ∈ (home_extract sampleHome).images := by decide
  exact ⟨hmem,
    c9_url_invariant_amended.1 sampleHome _ hmem _ rfl⟩

/-- C10 (confirmed; spec-modelled cache): a value inserted at time `T` is
returned unchanged by every lookup of that key strictly before `T + 3600`
and is treated as absent at or after `T + 3600`; the cache never holds more
than 200 entries; and a cache miss makes the handler issue a fresh upstream
fetch. -/
theorem c10_cache_ttl (c : TTLCache CacheVal) (k : String) (v : CacheVal)
    (T t : Nat) :
    (t < T + CACHE_TTL → (c.put T k v).get t k = some v)
  ∧ (T + CACHE_TTL ≤ t → (c.put T k v).get t k = none)
  ∧ (c.put T k v).entries.length ≤ CACHE_MAXSIZE
  ∧ (∀ (c2 : TTLCache CacheVal) (now : Nat) (ty : String) (doc : TableDoc),
       c2.get now (notificationsKey ty) = none →
       (news_tenders_careers c2 now ty doc).1 = true) := by
  refine ⟨fun h => cache_get_put_lt c T t k v h,
    fun h => cache_get_put_ge c T t k v h,
    put_length_le c T k v, ?_⟩
  intro c2 now ty doc h
  simp [news_tenders_careers, h]

/-- Witness for C10: an insertion at `T = 5` is visible at `t = 3604`,
invisible at `t = 3605`, the capacity bound holds, and a concrete miss
triggers the fetch. -/
theorem c10_cache_ttl_witness :
    (emptyCache.put 5 "home" (CacheVal.notifVal [])).get 3604 "home"
      = some (CacheVal.notifVal [])
  ∧ (emptyCache.put 5 "home" (CacheVal.notifVal [])).get 3605 "home" = none
  ∧ (emptyCache.put 5 "home" (CacheVal.notifVal [])).entries.length ≤ CACHE_MAXSIZE
  ∧ (news_tenders_careers emptyCache 0 "tenders" noTableDoc).1 = true := by
  have h1 := c10_cache_ttl emptyCache "home" (CacheVal.notifVal []) 5 3604
  have h2 := c10_cache_ttl emptyCache "home" (CacheVal.notifVal []) 5 3605
  exact ⟨h1.1 (by decide), h2.2.1 (by decide), h1.2.2.1,
    h1.2.2.2 emptyCache 0 "tenders" noTableDoc (by decide)⟩

end CollegeScraped
